import Mathlib

/-!
Verification development for the `glass` indexed object store.

The definitions below are a shallow embedding of the repository's Rust
source (the `glass` crate: `src/objects/rainfusion.rs` and
`src/backends/redis.rs`).  Machine integers are modelled as `Nat`/`Int`,
Rust `Option` as Lean `Option`, fallible paths (panics, `?`-propagated
errors) as `Option`, and the Redis backing engine as an explicit state
record with the sorted-set and hash command semantics the code uses.
-/

set_option autoImplicit false

/-! ## Identifiers

A UUID is a 128-bit value.  The store renders identifiers with
`Uuid::to_simple`, i.e. as unhyphenated 32-character lowercase hex
(spec section 6), and reads them back with `Uuid::parse_str`; both are
modelled concretely over `Nat`. -/

/-- A 128-bit universally-unique identifier value, modelled as a natural
number (meaningful values are `< 2^128`). -/
abbrev Uuid := Nat

/-- `Uuid::nil()`: the all-zero sentinel identifier. -/
def Uuid.nil : Uuid := 0

/-- Big-endian base-16 digit list of `u`, padded to `k` digits
(most significant first). -/
def hexDigitsBE : Nat → Nat → List Nat
  | 0, _ => []
  | k + 1, u => hexDigitsBE k (u / 16) ++ [u % 16]

/-- Render one hex digit as its lowercase character. -/
def hexChar (d : Nat) : Char :=
  if d < 10 then Char.ofNat (48 + d) else Char.ofNat (87 + d)

/-- Value of a hex character, accepting both cases; `none` on
a non-hex character. -/
def hexVal (c : Char) : Option Nat :=
  if 48 ≤ c.toNat ∧ c.toNat ≤ 57 then some (c.toNat - 48)
  else if 97 ≤ c.toNat ∧ c.toNat ≤ 102 then some (c.toNat - 87)
  else if 65 ≤ c.toNat ∧ c.toNat ≤ 70 then some (c.toNat - 55)
  else none

/-- `Uuid::to_simple().to_string()`: the unhyphenated 32-character
lowercase hex rendering used for every key and index member. -/
def Uuid.to_simple (u : Uuid) : String :=
  String.mk ((hexDigitsBE 32 u).map hexChar)

/-- `Uuid::parse_str` on the simple (unhyphenated 32-character hex)
rendering used by the store; `none` models the parse error the Rust
code propagates with `?`. -/
def Uuid.parse_str (s : String) : Option Uuid :=
  if s.length = 32 then
    s.data.foldl (fun acc c => acc.bind fun a => (hexVal c).map fun d => a * 16 + d)
      (some 0)
  else none

/-! ## The `Mod` record type (`src/objects/rainfusion.rs`) -/

/-- `ModType` enum: the two-variant item classification. -/
inductive ModType where
  | Mod
  | Library
  deriving DecidableEq, Repr

/-- `impl Default for ModType`: the default variant is `Mod`. -/
instance : Inhabited ModType := ⟨ModType.Mod⟩

/-- `ModDependency`: one dependency entry of a mod. -/
structure ModDependency where
  name : String
  summary : String
  version : String
  deriving DecidableEq, Repr

/-- The RoR1 `Mod` record (named `ModObject` here because `Mod` is taken
by the Lean core modulo typeclass). -/
structure ModObject where
  name : Option String
  author : Option String
  img_url : Option String
  summary : Option String
  description : Option String
  version : Option String
  item_type : ModType
  dependencies : Option (List (Uuid × ModDependency))
  tags : Option (List String)
  deriving DecidableEq, Repr

/-- `Mod::fields()`, as generated by the `Indexable` derive macro
(`glass-derive/src/lib.rs`): the declared field names in declaration
order. -/
def ModObject.fields : List String :=
  ["name", "author", "img_url", "summary", "description", "version",
   "item_type", "dependencies", "tags"]

/-- `impl From<ModType> for String`: match a `ModType` into its
lowercase string token. -/
def String.fromModType (item : ModType) : String :=
  match item with
  | ModType.Mod => "mod"
  | ModType.Library => "lib"

/-- `impl From<String> for ModType`: match a string token into a
`ModType`; any unrecognized token yields `ModType::Mod`. -/
def ModType.fromString (string : String) : ModType :=
  match string with
  | "mod" => ModType.Mod
  | "lib" => ModType.Library
  | _ => ModType.Mod

/-- The serialization capability (spec section 2): `serde_json` is an
external collaborator, used opaquely to turn the two
structurally-complex fields of `Mod` into scalar string payloads.  A
codec bundles the four entry points the `Mod` field mapper calls;
`decode` returning `none` models a `serde_json` parse error. -/
structure JsonCodec where
  encodeDeps : List (Uuid × ModDependency) → String
  decodeDeps : String → Option (List (Uuid × ModDependency))
  encodeTagsOpt : Option (List String) → String
  decodeTags : String → Option (List String)

/-- The `collapse_string` closure of `impl From<Mod> for Vec<(String, String)>`:
a `None` optional scalar collapses to the literal `"N/A"`. -/
def collapse_string (x : Option String) : String :=
  x.getD "N/A"

/-- `impl From<Mod> for Vec<(String, String)>` (flatten): fold a `Mod`
into its ordered field map.  A `None` dependencies field is serialized
as the empty slice, and `tags` is serialized as the whole
`Option<Vec<String>>`. -/
def ModObject.toFieldMap (C : JsonCodec) (object : ModObject) : List (String × String) :=
  [("name", collapse_string object.name),
   ("author", collapse_string object.author),
   ("img_url", collapse_string object.img_url),
   ("summary", collapse_string object.summary),
   ("description", collapse_string object.description),
   ("version", collapse_string object.version),
   ("item_type", String.fromModType object.item_type),
   ("dependencies", C.encodeDeps (object.dependencies.getD [])),
   ("tags", C.encodeTagsOpt object.tags)]

/-- `impl From<Vec<(String, String)>> for Mod` (unflatten): rebuild a
`Mod` from the values of a field map, by position.  The Rust code
indexes `values[6]`, `values[7]` and `values[8]` directly, which
panics when the map is shorter; the panic is modelled as `none`. -/
def ModObject.fromFieldMap (C : JsonCodec) (field_map : List (String × String)) :
    Option ModObject :=
  let values := field_map.map Prod.snd
  match values[6]?, values[7]?, values[8]? with
  | some v6, some v7, some v8 =>
    some
      { name := values[0]?
        author := values[1]?
        img_url := values[2]?
        summary := values[3]?
        description := values[4]?
        version := values[5]?
        item_type := ModType.fromString v6
        dependencies := C.decodeDeps v7
        tags := C.decodeTags v8 }
  | _, _, _ => none

/-! ## A concrete serialization capability

The spec (section 6) treats the payload wire format as opaque: the store
only requires that payloads round-trip, that the empty dependency list
encodes as the literal `"[]"`, and that an absent `tags` option encodes
as the literal `"null"` which fails to parse back as a string list
(`serde_json` behaviour at the boundary).  The concrete codec below is a
length-prefixed format with exactly those boundary properties; it is
used to instantiate the codec-parametric theorems on concrete inputs. -/

/-- Decimal value of a digit character list. -/
def decVal (l : List Char) : Nat :=
  l.foldl (fun a c => a * 10 + (c.toNat - 48)) 0

/-- Length-prefixed encoding of one string (no escaping needed). -/
def netEncode (s : String) : String :=
  toString s.length ++ ":" ++ s

/-- Parse one length-prefixed string, returning it and the rest of the
input. -/
def netParse (l : List Char) : Option (String × List Char) :=
  let ds := l.takeWhile Char.isDigit
  let rest := l.dropWhile Char.isDigit
  if ds.isEmpty then none
  else
    match rest with
    | ':' :: r =>
      let n := decVal ds
      if n ≤ r.length then some (String.mk (r.take n), r.drop n) else none
    | _ => none

/-- Parse a sequence of length-prefixed strings terminated by a closing
bracket; the fuel argument bounds the recursion by the input length. -/
def netListAux : Nat → List Char → Option (List String)
  | _, [']'] => some []
  | fuel + 1, l =>
    match netParse l with
    | some (s, r) => (netListAux fuel r).map (s :: ·)
    | none => none
  | 0, _ => none

/-- Concrete encoding of `serde_json::to_string(&Option<Vec<String>>)`:
an absent option encodes as `"null"`. -/
def encodeTagsJ : Option (List String) → String
  | none => "null"
  | some l => "[" ++ String.join (l.map netEncode) ++ "]"

/-- Concrete decoding of `serde_json::from_str::<Vec<String>>`: only a
bracketed string list parses; in particular `"null"` fails. -/
def decodeTagsJ (s : String) : Option (List String) :=
  match s.data with
  | '[' :: rest => netListAux (rest.length + 1) rest
  | _ => none

/-- Parse one dependency entry: decimal uuid, comma, three
length-prefixed strings, semicolon. -/
def depItemParse (l : List Char) : Option ((Uuid × ModDependency) × List Char) :=
  let ds := l.takeWhile Char.isDigit
  let rest := l.dropWhile Char.isDigit
  if ds.isEmpty then none
  else
    match rest with
    | ',' :: r1 =>
      (netParse r1).bind fun p1 =>
      (netParse p1.2).bind fun p2 =>
      (netParse p2.2).bind fun p3 =>
      match p3.2 with
      | ';' :: r5 => some ((decVal ds, ⟨p1.1, p2.1, p3.1⟩), r5)
      | _ => none
    | _ => none

/-- Parse a bracket-terminated sequence of dependency entries. -/
def depListAux : Nat → List Char → Option (List (Uuid × ModDependency))
  | _, [']'] => some []
  | fuel + 1, l =>
    (depItemParse l).bind fun p => (depListAux fuel p.2).map (p.1 :: ·)
  | 0, _ => none

/-- Concrete encoding of `json::objects_to_string` for the dependency
list; the empty list encodes as the literal `"[]"`. -/
def encodeDepsJ (l : List (Uuid × ModDependency)) : String :=
  "[" ++ String.join (l.map fun p =>
    toString p.1 ++ "," ++ netEncode p.2.name ++ netEncode p.2.summary ++
      netEncode p.2.version ++ ";") ++ "]"

/-- Concrete decoding of `json::string_to_objects` for the dependency
list. -/
def decodeDepsJ (s : String) : Option (List (Uuid × ModDependency)) :=
  match s.data with
  | '[' :: rest => depListAux (rest.length + 1) rest
  | _ => none

/-- The concrete serialization capability. -/
def jsonJ : JsonCodec :=
  ⟨encodeDepsJ, decodeDepsJ, encodeTagsJ, decodeTagsJ⟩

/-! ## The Redis backing engine and the store operations
(`src/backends/redis.rs`)

The backing engine state holds, per key, a sorted set (a list of
member/score pairs; `ZRANGE` views it sorted by score, ties broken by
member string) and a hash (a partial map from field name to value).
Each store operation is one read plus one command batch; commands are
applied in submission order. -/

/-- The persisted state of the backing key/value engine. -/
structure RedisState where
  zsets : String → List (String × Int)
  hashes : String → String → Option String

/-- The ordering-structure key `"{record_type}-index"`. -/
def indexKey (index : String) : String := index ++ "-index"

/-- The field-bag key `"{record_type}:{identifier}"`. -/
def objectKey (index : String) (uuid : Uuid) : String :=
  index ++ ":" ++ uuid.to_simple

/-- `ZADD key score member`: update the member's score if present,
otherwise append the entry. -/
def RedisState.zadd (st : RedisState) (key : String) (score : Int) (member : String) :
    RedisState :=
  { st with zsets := fun k =>
      if k = key then
        if (st.zsets key).any (fun p => p.1 == member) then
          (st.zsets key).map (fun p => if p.1 == member then (member, score) else p)
        else st.zsets key ++ [(member, score)]
      else st.zsets k }

/-- `ZREM key member`: drop the member's entry; a no-op when absent. -/
def RedisState.zrem (st : RedisState) (key : String) (member : String) : RedisState :=
  { st with zsets := fun k =>
      if k = key then (st.zsets key).filter (fun p => !(p.1 == member))
      else st.zsets k }

/-- `HSET key field value`. -/
def RedisState.hset (st : RedisState) (key field value : String) : RedisState :=
  { st with hashes := fun k f =>
      if k = key ∧ f = field then some value else st.hashes k f }

/-- `HDEL key field`. -/
def RedisState.hdel (st : RedisState) (key field : String) : RedisState :=
  { st with hashes := fun k f =>
      if k = key ∧ f = field then none else st.hashes k f }

/-- `ZCARD key`. -/
def RedisState.zcard (st : RedisState) (key : String) : Int :=
  (st.zsets key).length

/-- `ZSCORE key member`. -/
def RedisState.zscore (st : RedisState) (key member : String) : Option Int :=
  ((st.zsets key).find? (fun p => p.1 == member)).map Prod.snd

/-- The order `ZRANGE` presents a sorted set in: ascending score,
ties broken by ascending member string. -/
def zsetOrder (a b : String × Int) : Prop :=
  a.2 < b.2 ∨ (a.2 = b.2 ∧ ¬ b.1 < a.1)

instance : DecidableRel zsetOrder := fun a b => by
  unfold zsetOrder; infer_instance

/-- The entries of a sorted set in `ZRANGE` order. -/
def RedisState.zrangeList (st : RedisState) (key : String) : List (String × Int) :=
  List.insertionSort zsetOrder (st.zsets key)

/-- The inclusive-position slice `[s, e]` of a list, for already
resolved non-negative-from-start positions. -/
def listSliceCore {α : Type} (l : List α) (s e : Int) : List α :=
  if s ≤ e then (l.drop s.toNat).take (e - s + 1).toNat else []

/-- Redis range-index semantics: `start`/`stop` are inclusive 0-based
positions, negative values count from the end, and out-of-range
positions are clamped rather than erroring. -/
def listSlice {α : Type} (l : List α) (start stop : Int) : List α :=
  let len : Int := l.length
  listSliceCore l (max (if start < 0 then len + start else start) 0)
    (min (if stop < 0 then len + stop else stop) (len - 1))

/-- `ZRANGE key start stop`: the members of the inclusive position
window, in sorted order. -/
def RedisState.zrange (st : RedisState) (key : String) (start stop : Int) :
    List String :=
  (listSlice (st.zrangeList key) start stop).map Prod.fst

/-- A deletion command issued to the backing engine. -/
inductive RedisCmd where
  | zrem (key member : String)
  | hdel (key field : String)
  deriving DecidableEq, Repr

/-- `insert_object_into_database`: resolve the identifier (the
`freshUuid` argument stands for the `Uuid::new_v4()` draw used when the
caller supplies none), read the index cardinality, then submit one
batch of `ZADD (count+1)` followed by one `HSET` per field-map entry.
Returns the new state and the resolved identifier. -/
def insert_object_into_database (st : RedisState) (index : String)
    (field_map : List (String × String)) (uuid : Option Uuid) (freshUuid : Uuid) :
    RedisState × Uuid :=
  let gen_key := uuid.getD freshUuid
  let count : Int := st.zcard (indexKey index)
  let st1 := st.zadd (indexKey index) (count + 1) gen_key.to_simple
  let st2 := field_map.foldl
    (fun s item => s.hset (objectKey index gen_key) item.1 item.2) st1
  (st2, gen_key)

/-- `remove_object_from_database`: `ZREM` the ordering entry, then
submit one `HDEL` per entry of the caller-supplied field list.  The
second component records the deletion commands issued. -/
def remove_object_from_database (st : RedisState) (index : String)
    (field_map : List String) (uuid : Uuid) : RedisState × List RedisCmd :=
  let st1 := st.zrem (indexKey index) uuid.to_simple
  let st2 := field_map.foldl
    (fun s item => s.hdel (objectKey index uuid) item) st1
  (st2,
    RedisCmd.zrem (indexKey index) uuid.to_simple ::
      field_map.map (fun item => RedisCmd.hdel (objectKey index uuid) item))

/-- `edit_object_from_database`: one `HSET` per supplied
(field, payload) pair, nothing else. -/
def edit_object_from_database (st : RedisState) (index : String)
    (field_map : List (String × String)) (uuid : Uuid) : RedisState :=
  field_map.foldl (fun s item => s.hset (objectKey index uuid) item.1 item.2) st

/-- `retrieve_object_from_database`: one `HGET` per declared field (a
nil reply for an absent field is skipped at the redis-rs boundary),
then the merge loop pairs the i-th declared name with the i-th reply
when one exists. -/
def retrieve_object_from_database (st : RedisState) (index : String)
    (field_map : List String) (uuid : Uuid) : List (String × String) :=
  let output := field_map.filterMap (fun item => st.hashes (objectKey index uuid) item)
  (List.range field_map.length).filterMap (fun i =>
    match output[i]? with
    | some v => some ((field_map[i]?).getD "", v)
    | none => none)

/-- `grab_first_object`: `ZRANGE key 0 0`; the nil identifier when the
index is empty; `none` models a propagated parse error. -/
def grab_first_object (st : RedisState) (index : String) : Option Uuid :=
  match (st.zrange (indexKey index) 0 0).head? with
  | some s => Uuid.parse_str s
  | none => some Uuid.nil

/-- `grab_last_object`: `ZRANGE key (-1) (-1)`; the nil identifier when
the index is empty; `none` models a propagated parse error. -/
def grab_last_object (st : RedisState) (index : String) : Option Uuid :=
  match (st.zrange (indexKey index) (-1) (-1)).head? with
  | some s => Uuid.parse_str s
  | none => some Uuid.nil

/-- The loop body of `request_group_of_objects`: parse each member of
the range, retrieve its field bag, and push a `(nil, [])` sentinel
right after the entry whose identifier equals `grab_last_object`. -/
def requestGroupAux (st : RedisState) (index : String) (field_map : List String) :
    List String → Option (List (Uuid × List (String × String)))
  | [] => some []
  | value :: rest =>
    (Uuid.parse_str value).bind fun uuid =>
    (grab_last_object st index).bind fun lastU =>
    (requestGroupAux st index field_map rest).map fun tail =>
      (uuid, retrieve_object_from_database st index field_map uuid) ::
        ((if uuid = lastU then [(Uuid.nil, [])] else []) ++ tail)

/-- `request_group_of_objects`: `ZRANGE` the window
`[8*(amount-1), 8*amount-1]` of the ordering index and run the loop
body over it. -/
def request_group_of_objects (st : RedisState) (field_map : List String)
    (index : String) (amount : Int) :
    Option (List (Uuid × List (String × String))) :=
  requestGroupAux st index field_map
    (st.zrange (indexKey index) (8 * (amount - 1)) (8 * amount - 1))

/-! ## Concrete fixtures

Concrete records and engine states used to instantiate the theorems
below on explicit inputs (mirroring the repository's `generic_mod`
test fixture). -/

/-- A concrete dependency list. -/
def genericDeps : List (Uuid × ModDependency) :=
  [(57005, ⟨"Example Dependency", "Example Summary", "0.0.1"⟩)]

/-- A fully-populated concrete record. -/
def genericMod : ModObject :=
  ⟨some "Example Mod", some "Example Author", some "localhost",
   some "Example Summary", some "Example Description", some "0.0.1",
   ModType.Mod, some genericDeps, some ["test", "test2"]⟩

/-- A record whose only absent field is `tags`. -/
def tagsNoneMod : ModObject :=
  ⟨some "a", some "b", some "c", some "d", some "e", some "f",
   ModType.Mod, some [], none⟩

/-- A record whose only absent field is `name`. -/
def nameNoneMod : ModObject :=
  ⟨none, some "b", some "c", some "d", some "e", some "f",
   ModType.Mod, some [], some []⟩

/-- The empty backing-engine state. -/
def emptyState : RedisState := ⟨fun _ => [], fun _ _ => none⟩

/-- A state holding one indexed record whose field-bag contains only
the `name` field (every other declared field is absent). -/
def partialBagState : RedisState :=
  ⟨fun k => if k = indexKey "mods" then [((5 : Uuid).to_simple, 1)] else [],
   fun k f => if k = objectKey "mods" 5 ∧ f = "name" then some "Example Mod" else none⟩

/-- A state whose `mods` ordering index holds two identifiers with
ranks 1 and 2. -/
def twoState : RedisState :=
  ⟨fun k => if k = indexKey "mods" then
      [((1 : Uuid).to_simple, 1), ((2 : Uuid).to_simple, 2)] else [],
   fun _ _ => none⟩

/-- A state whose `mods` ordering index holds nine identifiers with
ranks 1 through 9. -/
def nineState : RedisState :=
  ⟨fun k => if k = indexKey "mods" then
      (List.range 9).map (fun i => (((i : Uuid) + 1).to_simple, (i : Int) + 1)) else [],
   fun _ _ => none⟩

/-! ## Lemmas: the hex rendering round-trips -/

theorem hexVal_hexChar (d : Nat) (h : d < 16) : hexVal (hexChar d) = some d := by
  interval_cases d <;> decide

theorem length_hexDigitsBE (k u : Nat) : (hexDigitsBE k u).length = k := by
  induction k generalizing u with
  | zero => rfl
  | succ k ih => simp [hexDigitsBE, ih]

theorem mem_hexDigitsBE_lt (k u : Nat) : ∀ d ∈ hexDigitsBE k u, d < 16 := by
  induction k generalizing u with
  | zero => simp [hexDigitsBE]
  | succ k ih =>
    intro d hd
    simp only [hexDigitsBE, List.mem_append, List.mem_singleton] at hd
    rcases hd with hd | hd
    · exact ih (u / 16) d hd
    · subst hd; exact Nat.mod_lt _ (by norm_num)

theorem foldl_hexVal (ds : List Nat) (a : Nat) (h : ∀ d ∈ ds, d < 16) :
    (ds.map hexChar).foldl
        (fun acc c => acc.bind fun x => (hexVal c).map fun d => x * 16 + d)
        (some a)
      = some (ds.foldl (fun x d => x * 16 + d) a) := by
  induction ds generalizing a with
  | nil => rfl
  | cons d ds ih =>
    have hd : d < 16 := h d (by simp)
    simp only [List.map_cons, List.foldl_cons, Option.bind_some, hexVal_hexChar d hd,
      Option.map_some]
    exact ih (a * 16 + d) (fun x hx => h x (by simp [hx]))

theorem mod_mul_pow_succ (u k : Nat) :
    u % 16 ^ (k + 1) = 16 * (u / 16 % 16 ^ k) + u % 16 := by
  have hm : 0 < 16 ^ k := pow_pos (by norm_num) k
  have h1 : (16 * (u / 16)) % (16 * 16 ^ k) = 16 * (u / 16 % 16 ^ k) :=
    Nat.mul_mod_mul_left 16 _ _
  have h2 : u % 16 < 16 := Nat.mod_lt _ (by norm_num)
  have h4 : u / 16 % 16 ^ k < 16 ^ k := Nat.mod_lt _ hm
  calc u % 16 ^ (k + 1)
      = (16 * (u / 16) + u % 16) % (16 * 16 ^ k) := by
        rw [Nat.div_add_mod, pow_succ']
    _ = ((16 * (u / 16)) % (16 * 16 ^ k) + (u % 16) % (16 * 16 ^ k)) % (16 * 16 ^ k) := by
        rw [← Nat.add_mod]
    _ = (16 * (u / 16 % 16 ^ k) + u % 16) % (16 * 16 ^ k) := by
        have h5 : u % 16 % (16 * 16 ^ k) = u % 16 :=
          Nat.mod_eq_of_lt (lt_of_lt_of_le h2 (Nat.le_mul_of_pos_right 16 hm))
        rw [h1, h5]
    _ = 16 * (u / 16 % 16 ^ k) + u % 16 := Nat.mod_eq_of_lt (by omega)

theorem foldl_hexDigitsBE (k : Nat) : ∀ u a : Nat,
    (hexDigitsBE k u).foldl (fun x d => x * 16 + d) a = a * 16 ^ k + u % 16 ^ k := by
  induction k with
  | zero => intro u a; simp [hexDigitsBE, Nat.mod_one]
  | succ k ih =>
    intro u a
    simp only [hexDigitsBE, List.foldl_append, List.foldl_cons, List.foldl_nil, ih]
    rw [mod_mul_pow_succ]
    ring

/-- `parse_str` is a left inverse of `to_simple` on 128-bit values: the
identifier rendering the store uses for keys and index members
round-trips. -/
theorem Uuid.parse_str_to_simple (u : Uuid) (h : u < 2 ^ 128) :
    Uuid.parse_str u.to_simple = some u := by
  have h16 : (16 : Nat) ^ 32 = 2 ^ 128 := by norm_num
  have hmk : u.to_simple = String.mk ((hexDigitsBE 32 u).map hexChar) := rfl
  have hdata : ∀ l : List Char, (String.mk l).data = l := fun _ => rfl
  have hlen : u.to_simple.length = 32 := by
    rw [hmk, String.mk_length, List.length_map, length_hexDigitsBE]
  unfold Uuid.parse_str
  rw [if_pos hlen, hmk, hdata]
  rw [foldl_hexVal _ 0 (mem_hexDigitsBE_lt 32 u), foldl_hexDigitsBE]
  simp only [Nat.zero_mul, Nat.zero_add]
  rw [Nat.mod_eq_of_lt (by rw [h16]; exact h)]

/-- `to_simple` is injective on 128-bit values. -/
theorem Uuid.to_simple_injOn (a b : Uuid) (ha : a < 2 ^ 128) (hb : b < 2 ^ 128)
    (h : a.to_simple = b.to_simple) : a = b := by
  have := Uuid.parse_str_to_simple a ha
  rw [h, Uuid.parse_str_to_simple b hb] at this
  exact (Option.some_injective _ this).symm

/-! ## Lemmas: the field mapper -/

theorem fromString_fromModType (t : ModType) :
    ModType.fromString (String.fromModType t) = t := by
  cases t <;> rfl

/-- C7: decoding an enum-valued field token is total: the lowercase
tokens decode to their canonical variants (`"mod"` to `Mod`, `"lib"` to
`Library`) and every other token decodes to the first/default variant
`Mod` rather than an error. -/
theorem modtype_decode_total (s : String) (h1 : s ≠ "mod") (h2 : s ≠ "lib") :
    ModType.fromString "mod" = ModType.Mod ∧
    ModType.fromString "lib" = ModType.Library ∧
    ModType.fromString s = ModType.Mod ∧ (default : ModType) = ModType.Mod := by
  refine ⟨rfl, rfl, ?_, rfl⟩
  unfold ModType.fromString
  split <;> simp_all

/-- Witness for C7 at the concrete token `"unknown"`. -/
theorem modtype_decode_total_witness :
    ("unknown" ≠ "mod") ∧ ("unknown" ≠ "lib") ∧
    (ModType.fromString "mod" = ModType.Mod ∧
      ModType.fromString "lib" = ModType.Library ∧
      ModType.fromString "unknown" = ModType.Mod ∧ (default : ModType) = ModType.Mod) :=
  ⟨by decide, by decide, modtype_decode_total "unknown" (by decide) (by decide)⟩

/-- C1: unflattening the field map produced by flattening restores a
record exactly, provided every field is present (all options are
`some`) and the two serialized payloads round-trip through the
serialization capability. -/
theorem mod_roundtrip (C : JsonCodec) (m : ModObject)
    (l : List (Uuid × ModDependency)) (ts : List String)
    (h1 : m.name.isSome) (h2 : m.author.isSome) (h3 : m.img_url.isSome)
    (h4 : m.summary.isSome) (h5 : m.description.isSome) (h6 : m.version.isSome)
    (h7 : m.dependencies = some l) (h8 : m.tags = some ts)
    (h9 : C.decodeDeps (C.encodeDeps l) = some l)
    (h10 : C.decodeTags (C.encodeTagsOpt (some ts)) = some ts) :
    ModObject.fromFieldMap C (ModObject.toFieldMap C m) = some m := by
  obtain ⟨n, a, i, sm, d, v, it, dp, tg⟩ := m
  rw [Option.isSome_iff_exists] at h1 h2 h3 h4 h5 h6
  obtain ⟨n', hn⟩ := h1
  obtain ⟨a', ha⟩ := h2
  obtain ⟨i', hi⟩ := h3
  obtain ⟨sm', hsm⟩ := h4
  obtain ⟨d', hd⟩ := h5
  obtain ⟨v', hv⟩ := h6
  simp only at hn ha hi hsm hd hv h7 h8
  subst hn ha hi hsm hd hv h7 h8
  simp [ModObject.toFieldMap, ModObject.fromFieldMap, collapse_string,
    fromString_fromModType, h9, h10]

/-- Witness for C1 at the concrete codec and the fully-populated
concrete record. -/
theorem mod_roundtrip_witness :
    (jsonJ.decodeDeps (jsonJ.encodeDeps genericDeps) = some genericDeps ∧
      jsonJ.decodeTags (jsonJ.encodeTagsOpt (some ["test", "test2"])) =
        some ["test", "test2"]) ∧
    ModObject.fromFieldMap jsonJ (ModObject.toFieldMap jsonJ genericMod) =
      some genericMod :=
  ⟨⟨by decide, by decide⟩,
    mod_roundtrip jsonJ genericMod genericDeps ["test", "test2"]
      (by decide) (by decide) (by decide) (by decide) (by decide) (by decide)
      rfl rfl (by decide) (by decide)⟩

/-- C3 (counterexample): converting the empty field map does not
succeed — the Rust conversion panics indexing `values[6]` — refuting
the claim that conversion totally succeeds for every input field map,
including ones shorter than the declared field list. -/
theorem from_field_map_empty_cex :
    ModObject.fromFieldMap jsonJ [] = none := rfl

/-- C3 (amended): for every field map holding at least as many entries
as the declared field list (9), conversion succeeds, and each field
resolves best-effort: scalar fields take the positional value, the
enum field decodes with fallback-to-default, and the two serialized
fields resolve to `C.decode… payload`, which is `none` — the empty
default — exactly when the payload is malformed; a corrupt payload
never blocks construction of the rest of the record. -/
theorem from_field_map_defaults (C : JsonCodec) (field_map : List (String × String))
    (h : 9 ≤ field_map.length) :
    ∃ m, ModObject.fromFieldMap C field_map = some m ∧
      m.name = (field_map.map Prod.snd)[0]? ∧
      m.author = (field_map.map Prod.snd)[1]? ∧
      m.img_url = (field_map.map Prod.snd)[2]? ∧
      m.summary = (field_map.map Prod.snd)[3]? ∧
      m.description = (field_map.map Prod.snd)[4]? ∧
      m.version = (field_map.map Prod.snd)[5]? ∧
      m.item_type = ModType.fromString ((field_map.map Prod.snd).getD 6 "") ∧
      m.dependencies = C.decodeDeps ((field_map.map Prod.snd).getD 7 "") ∧
      m.tags = C.decodeTags ((field_map.map Prod.snd).getD 8 "") := by
  have hlen : 9 ≤ (field_map.map Prod.snd).length := by simpa using h
  have h6 : (field_map.map Prod.snd)[6]? = some (field_map.map Prod.snd)[6] :=
    List.getElem?_eq_getElem (by omega)
  have h7 : (field_map.map Prod.snd)[7]? = some (field_map.map Prod.snd)[7] :=
    List.getElem?_eq_getElem (by omega)
  have h8 : (field_map.map Prod.snd)[8]? = some (field_map.map Prod.snd)[8] :=
    List.getElem?_eq_getElem (by omega)
  refine ⟨⟨(field_map.map Prod.snd)[0]?, (field_map.map Prod.snd)[1]?,
      (field_map.map Prod.snd)[2]?, (field_map.map Prod.snd)[3]?,
      (field_map.map Prod.snd)[4]?, (field_map.map Prod.snd)[5]?,
      ModType.fromString ((field_map.map Prod.snd).getD 6 ""),
      C.decodeDeps ((field_map.map Prod.snd).getD 7 ""),
      C.decodeTags ((field_map.map Prod.snd).getD 8 "")⟩,
    ?_, rfl, rfl, rfl, rfl, rfl, rfl, rfl, rfl, rfl⟩
  simp only [ModObject.fromFieldMap, h6, h7, h8, List.getD_eq_getElem?_getD,
    Option.getD_some]

/-- Witness for C3 (amended) at a concrete 9-entry field map whose
enum, dependencies and tags payloads are all malformed. -/
theorem from_field_map_defaults_witness :
    (9 ≤ ([("name", "Example"), ("author", "A"), ("img_url", "B"),
        ("summary", "C"), ("description", "D"), ("version", "E"),
        ("item_type", "weird"), ("dependencies", "junk"), ("tags", "null")] :
        List (String × String)).length) ∧
    (∃ m, ModObject.fromFieldMap jsonJ
        [("name", "Example"), ("author", "A"), ("img_url", "B"),
         ("summary", "C"), ("description", "D"), ("version", "E"),
         ("item_type", "weird"), ("dependencies", "junk"), ("tags", "null")] = some m ∧
      m.name = ([("name", "Example"), ("author", "A"), ("img_url", "B"),
         ("summary", "C"), ("description", "D"), ("version", "E"),
         ("item_type", "weird"), ("dependencies", "junk"), ("tags", "null")].map
           Prod.snd)[0]? ∧
      m.author = ([("name", "Example"), ("author", "A"), ("img_url", "B"),
         ("summary", "C"), ("description", "D"), ("version", "E"),
         ("item_type", "weird"), ("dependencies", "junk"), ("tags", "null")].map
           Prod.snd)[1]? ∧
      m.img_url = ([("name", "Example"), ("author", "A"), ("img_url", "B"),
         ("summary", "C"), ("description", "D"), ("version", "E"),
         ("item_type", "weird"), ("dependencies", "junk"), ("tags", "null")].map
           Prod.snd)[2]? ∧
      m.summary = ([("name", "Example"), ("author", "A"), ("img_url", "B"),
         ("summary", "C"), ("description", "D"), ("version", "E"),
         ("item_type", "weird"), ("dependencies", "junk"), ("tags", "null")].map
           Prod.snd)[3]? ∧
      m.description = ([("name", "Example"), ("author", "A"), ("img_url", "B"),
         ("summary", "C"), ("description", "D"), ("version", "E"),
         ("item_type", "weird"), ("dependencies", "junk"), ("tags", "null")].map
           Prod.snd)[4]? ∧
      m.version = ([("name", "Example"), ("author", "A"), ("img_url", "B"),
         ("summary", "C"), ("description", "D"), ("version", "E"),
         ("item_type", "weird"), ("dependencies", "junk"), ("tags", "null")].map
           Prod.snd)[5]? ∧
      m.item_type = ModType.fromString
        (([("name", "Example"), ("author", "A"), ("img_url", "B"),
         ("summary", "C"), ("description", "D"), ("version", "E"),
         ("item_type", "weird"), ("dependencies", "junk"), ("tags", "null")].map
           Prod.snd).getD 6 "") ∧
      m.dependencies = jsonJ.decodeDeps
        (([("name", "Example"), ("author", "A"), ("img_url", "B"),
         ("summary", "C"), ("description", "D"), ("version", "E"),
         ("item_type", "weird"), ("dependencies", "junk"), ("tags", "null")].map
           Prod.snd).getD 7 "") ∧
      m.tags = jsonJ.decodeTags
        (([("name", "Example"), ("author", "A"), ("img_url", "B"),
         ("summary", "C"), ("description", "D"), ("version", "E"),
         ("item_type", "weird"), ("dependencies", "junk"), ("tags", "null")].map
           Prod.snd).getD 8 "")) :=
  ⟨by decide, from_field_map_defaults jsonJ _ (by decide)⟩

/-- C9 (counterexample): a record with an absent field can be restored
by the round trip — when the only absent field is `tags`, flatten
writes the `"null"` payload, which fails to parse back as a string
list and so is recovered as `none`; the record round-trips exactly,
refuting "for every record with at least one absent field the
composite does not restore it". -/
theorem roundtrip_tags_none_cex :
    tagsNoneMod.tags = none ∧
    ModObject.fromFieldMap jsonJ (ModObject.toFieldMap jsonJ tagsNoneMod) =
      some tagsNoneMod :=
  ⟨rfl, by decide⟩

/-- C9 (amended): for every record in which at least one of the six
optional scalar fields or the dependencies field is absent, the
flatten/unflatten composite does not restore the record: flatten
writes the literal `"N/A"` for each `none` scalar and the `"[]"`
payload for a `none` dependencies field, so unflatten returns
`some "N/A"` for those scalars and `some []` for dependencies — such a
field is never recovered as `none`, and a field genuinely equal to
`some "N/A"` is indistinguishable from an absent one.  (A record whose
only absent field is `tags` is restored, per the counterexample.) -/
theorem roundtrip_lossy (C : JsonCodec) (m : ModObject)
    (hE : C.encodeDeps [] = "[]") (hD : C.decodeDeps "[]" = some [])
    (habs : m.name = none ∨ m.author = none ∨ m.img_url = none ∨ m.summary = none ∨
      m.description = none ∨ m.version = none ∨ m.dependencies = none) :
    ModObject.fromFieldMap C (ModObject.toFieldMap C m) ≠ some m ∧
    (m.name = none → (ModObject.toFieldMap C m).lookup "name" = some "N/A") ∧
    (m.author = none → (ModObject.toFieldMap C m).lookup "author" = some "N/A") ∧
    (m.img_url = none → (ModObject.toFieldMap C m).lookup "img_url" = some "N/A") ∧
    (m.summary = none → (ModObject.toFieldMap C m).lookup "summary" = some "N/A") ∧
    (m.description = none →
      (ModObject.toFieldMap C m).lookup "description" = some "N/A") ∧
    (m.version = none → (ModObject.toFieldMap C m).lookup "version" = some "N/A") ∧
    (m.dependencies = none →
      (ModObject.toFieldMap C m).lookup "dependencies" = some "[]") ∧
    (∀ mr, ModObject.fromFieldMap C (ModObject.toFieldMap C m) = some mr →
      (m.name = none → mr.name = some "N/A") ∧
      (m.author = none → mr.author = some "N/A") ∧
      (m.img_url = none → mr.img_url = some "N/A") ∧
      (m.summary = none → mr.summary = some "N/A") ∧
      (m.description = none → mr.description = some "N/A") ∧
      (m.version = none → mr.version = some "N/A") ∧
      (m.dependencies = none → mr.dependencies = some [])) := by
  obtain ⟨n, a, i, sm, d, v, it, dp, tg⟩ := m
  simp only at habs
  have hcomp : ModObject.fromFieldMap C
      (ModObject.toFieldMap C ⟨n, a, i, sm, d, v, it, dp, tg⟩) =
      some ⟨some (collapse_string n), some (collapse_string a),
        some (collapse_string i), some (collapse_string sm),
        some (collapse_string d), some (collapse_string v),
        ModType.fromString (String.fromModType it),
        C.decodeDeps (C.encodeDeps (dp.getD [])),
        C.decodeTags (C.encodeTagsOpt tg)⟩ := by
    simp [ModObject.toFieldMap, ModObject.fromFieldMap]
  refine ⟨?_, ?_, ?_, ?_, ?_, ?_, ?_, ?_, ?_⟩
  · intro hEq
    rw [hcomp] at hEq
    simp only [Option.some.injEq, ModObject.mk.injEq] at hEq
    obtain ⟨e1, e2, e3, e4, e5, e6, _, e8, _⟩ := hEq
    rcases habs with h | h | h | h | h | h | h
    · subst h; simp [collapse_string] at e1
    · subst h; simp [collapse_string] at e2
    · subst h; simp [collapse_string] at e3
    · subst h; simp [collapse_string] at e4
    · subst h; simp [collapse_string] at e5
    · subst h; simp [collapse_string] at e6
    · subst h
      simp only [Option.getD_none] at e8
      rw [hE, hD] at e8
      exact Option.some_ne_none _ e8
  · intro h; subst h; simp [ModObject.toFieldMap, List.lookup, collapse_string]
  · intro h; subst h; simp [ModObject.toFieldMap, List.lookup, collapse_string]
  · intro h; subst h; simp [ModObject.toFieldMap, List.lookup, collapse_string]
  · intro h; subst h; simp [ModObject.toFieldMap, List.lookup, collapse_string]
  · intro h; subst h; simp [ModObject.toFieldMap, List.lookup, collapse_string]
  · intro h; subst h; simp [ModObject.toFieldMap, List.lookup, collapse_string]
  · intro h; subst h; simp [ModObject.toFieldMap, List.lookup, hE]
  · intro mr hmr
    rw [hcomp] at hmr
    simp only [Option.some.injEq] at hmr
    subst hmr
    refine ⟨?_, ?_, ?_, ?_, ?_, ?_, ?_⟩ <;> intro h <;> subst h <;>
      simp [collapse_string, hE, hD]

/-- Witness for C9 (amended) at the concrete codec and a record whose
`name` field is absent. -/
theorem roundtrip_lossy_witness :
    (jsonJ.encodeDeps [] = "[]" ∧ jsonJ.decodeDeps "[]" = some [] ∧
      nameNoneMod.name = none) ∧
    ModObject.fromFieldMap jsonJ (ModObject.toFieldMap jsonJ nameNoneMod) ≠
      some nameNoneMod :=
  ⟨⟨rfl, by decide, rfl⟩,
    (roundtrip_lossy jsonJ nameNoneMod rfl (by decide) (Or.inl rfl)).1⟩

/-! ## Lemmas: the store operations -/

theorem foldl_hset_zsets (fm : List (String × String)) (s : RedisState) (k : String) :
    (fm.foldl (fun s item => s.hset k item.1 item.2) s).zsets = s.zsets := by
  induction fm generalizing s with
  | nil => rfl
  | cons p fm ih => rw [List.foldl_cons, ih]; rfl

theorem foldl_hset_hashes_frame (fm : List (String × String)) (s : RedisState)
    (k k' f : String) (h : k' ≠ k ∨ f ∉ fm.map Prod.fst) :
    (fm.foldl (fun s item => s.hset k item.1 item.2) s).hashes k' f =
      s.hashes k' f := by
  induction fm generalizing s with
  | nil => rfl
  | cons p fm ih =>
    rw [List.foldl_cons]
    have htail : k' ≠ k ∨ f ∉ fm.map Prod.fst := by
      rcases h with h | h
      · exact Or.inl h
      · exact Or.inr fun hf => h (by simp [hf])
    rw [ih _ htail]
    simp only [RedisState.hset]
    rw [if_neg]
    rcases h with h | h
    · exact fun hc => h hc.1
    · exact fun hc => h (by simp [hc.2])

theorem foldl_hdel_zsets (fl : List String) (s : RedisState) (k : String) :
    (fl.foldl (fun s item => s.hdel k item) s).zsets = s.zsets := by
  induction fl generalizing s with
  | nil => rfl
  | cons a fl ih => rw [List.foldl_cons, ih]; rfl

theorem foldl_hdel_hashes (fl : List String) (s : RedisState) (k k' f : String) :
    (fl.foldl (fun s item => s.hdel k item) s).hashes k' f =
      if k' = k ∧ f ∈ fl then none else s.hashes k' f := by
  induction fl generalizing s with
  | nil => simp
  | cons a fl ih =>
    rw [List.foldl_cons, ih]
    simp only [RedisState.hdel]
    by_cases hk : k' = k <;> by_cases hf : f ∈ fl <;> by_cases hfa : f = a <;>
      simp_all

/-- C4: inserting an object appends its identifier to the ordering
index with rank equal to the index's current cardinality plus one
(provided the identifier is not already a member, which is the case
for a fresh identifier), and returns the resolved identifier. -/
theorem insert_appends_rank (st : RedisState) (index : String)
    (field_map : List (String × String)) (uuid : Option Uuid) (freshUuid : Uuid)
    (hfresh : ∀ p ∈ st.zsets (indexKey index), p.1 ≠ (uuid.getD freshUuid).to_simple) :
    ((insert_object_into_database st index field_map uuid freshUuid).1).zsets
        (indexKey index) =
      st.zsets (indexKey index) ++
        [((uuid.getD freshUuid).to_simple, st.zcard (indexKey index) + 1)] ∧
    (insert_object_into_database st index field_map uuid freshUuid).2 =
      uuid.getD freshUuid := by
  refine ⟨?_, rfl⟩
  have hz : ((insert_object_into_database st index field_map uuid freshUuid).1).zsets =
      (st.zadd (indexKey index) (st.zcard (indexKey index) + 1)
        (uuid.getD freshUuid).to_simple).zsets := by
    simp only [insert_object_into_database]
    rw [foldl_hset_zsets]
  rw [hz]
  have hany : ¬ ((st.zsets (indexKey index)).any
      (fun p => p.1 == (uuid.getD freshUuid).to_simple) = true) := by
    simp only [List.any_eq_true, beq_iff_eq]
    rintro ⟨p, hp, hpe⟩
    exact hfresh p hp hpe
  simp only [RedisState.zadd]
  simp [hany]

/-- Witness for C4: two successive inserts into the empty index assign
ranks 1 and 2 (the second insert is the theorem applied to the state
produced by the first). -/
theorem insert_appends_rank_witness :
    (∀ p ∈ ((insert_object_into_database emptyState "mods" [("name", "x")]
        (some 1) 99).1).zsets (indexKey "mods"),
      p.1 ≠ ((some (2 : Uuid)).getD 99).to_simple) ∧
    ((insert_object_into_database
        ((insert_object_into_database emptyState "mods" [("name", "x")]
          (some 1) 99).1)
        "mods" [("name", "y")] (some 2) 99).1).zsets (indexKey "mods") =
      ((insert_object_into_database emptyState "mods" [("name", "x")]
          (some 1) 99).1).zsets (indexKey "mods") ++
        [(((some (2 : Uuid)).getD 99).to_simple,
          ((insert_object_into_database emptyState "mods" [("name", "x")]
            (some 1) 99).1).zcard (indexKey "mods") + 1)] :=
  ⟨by decide,
    (insert_appends_rank _ "mods" [("name", "y")] (some 2) 99 (by decide)).1⟩

/-- C2 (counterexample): `remove` issues a field-deletion command for a
declared field (`author`) that is absent from the record's field-bag —
the command list is built from the declared field list, not from the
keys currently present — refuting "issues a deletion command for
exactly the keys present, never for fields already absent". -/
theorem remove_deletes_absent_cex :
    RedisCmd.hdel (objectKey "mods" 5) "author" ∈
      (remove_object_from_database partialBagState "mods" ModObject.fields 5).2 ∧
    partialBagState.hashes (objectKey "mods" 5) "author" = none := by
  constructor
  · simp [remove_object_from_database, ModObject.fields]
  · decide

/-- C2 (amended): `remove` deletes the ordering-index entry and issues
one field-deletion command for every entry of the caller-supplied
declared field list, regardless of which keys are present in the bag;
in the resulting state the ordering entry is gone, every declared
field is absent from the bag, and every other field is untouched. -/
theorem remove_deletes_declared (st : RedisState) (index : String)
    (field_map : List String) (uuid : Uuid) :
    (remove_object_from_database st index field_map uuid).2 =
        RedisCmd.zrem (indexKey index) uuid.to_simple ::
          field_map.map (fun f => RedisCmd.hdel (objectKey index uuid) f) ∧
    (remove_object_from_database st index field_map uuid).1.zsets (indexKey index) =
        (st.zsets (indexKey index)).filter (fun p => !(p.1 == uuid.to_simple)) ∧
    (∀ f ∈ field_map,
      (remove_object_from_database st index field_map uuid).1.hashes
        (objectKey index uuid) f = none) ∧
    (∀ f, f ∉ field_map →
      (remove_object_from_database st index field_map uuid).1.hashes
        (objectKey index uuid) f = st.hashes (objectKey index uuid) f) := by
  refine ⟨rfl, ?_, ?_, ?_⟩
  · show ((field_map.foldl (fun s item => s.hdel (objectKey index uuid) item)
        (st.zrem (indexKey index) uuid.to_simple)).zsets) (indexKey index) = _
    rw [foldl_hdel_zsets]
    simp [RedisState.zrem]
  · intro f hf
    show (field_map.foldl (fun s item => s.hdel (objectKey index uuid) item)
        (st.zrem (indexKey index) uuid.to_simple)).hashes (objectKey index uuid) f = _
    rw [foldl_hdel_hashes]
    simp [hf]
  · intro f hf
    show (field_map.foldl (fun s item => s.hdel (objectKey index uuid) item)
        (st.zrem (indexKey index) uuid.to_simple)).hashes (objectKey index uuid) f = _
    rw [foldl_hdel_hashes]
    simp [hf]
    rfl

/-- Witness for C2 (amended): the command list and the deleted `name`
field at the concrete one-record state. -/
theorem remove_deletes_declared_witness :
    ("name" ∈ ModObject.fields) ∧
    (remove_object_from_database partialBagState "mods" ModObject.fields 5).1.hashes
      (objectKey "mods" 5) "name" = none :=
  ⟨by decide,
    (remove_deletes_declared partialBagState "mods" ModObject.fields 5).2.2.1
      "name" (by decide)⟩

/-- C6: `edit` writes only the supplied fields: the ordering indexes
(hence every rank) are untouched, every other record's bag is
untouched, and every field of this record's bag not named in the
change list keeps its prior value. -/
theorem edit_frame (st : RedisState) (index : String)
    (field_map : List (String × String)) (uuid : Uuid) :
    (edit_object_from_database st index field_map uuid).zsets = st.zsets ∧
    (∀ k f, k ≠ objectKey index uuid →
      (edit_object_from_database st index field_map uuid).hashes k f =
        st.hashes k f) ∧
    (∀ f, f ∉ field_map.map Prod.fst →
      (edit_object_from_database st index field_map uuid).hashes
          (objectKey index uuid) f =
        st.hashes (objectKey index uuid) f) := by
  refine ⟨foldl_hset_zsets _ _ _, ?_, ?_⟩
  · intro k f hk
    exact foldl_hset_hashes_frame _ _ _ _ _ (Or.inl hk)
  · intro f hf
    exact foldl_hset_hashes_frame _ _ _ _ _ (Or.inr hf)

/-- Witness for C6: editing the `name` field leaves the absent
`author` field of the concrete state untouched. -/
theorem edit_frame_witness :
    ("author" ∉ ([("name", "Changed")].map Prod.fst)) ∧
    (edit_object_from_database partialBagState "mods" [("name", "Changed")] 5).hashes
        (objectKey "mods" 5) "author" =
      partialBagState.hashes (objectKey "mods" 5) "author" :=
  ⟨by decide,
    (edit_frame partialBagState "mods" [("name", "Changed")] 5).2.2
      "author" (by decide)⟩

/-- C8: on an empty ordering index, `grab_first_object` and
`grab_last_object` both return the all-zero nil identifier, not an
error (`some` is the `Ok` arm of the Rust result). -/
theorem grab_empty_nil (st : RedisState) (index : String)
    (h : st.zsets (indexKey index) = []) :
    grab_first_object st index = some Uuid.nil ∧
    grab_last_object st index = some Uuid.nil := by
  have hz : st.zrangeList (indexKey index) = [] := by
    rw [RedisState.zrangeList, h]; rfl
  have h1 : st.zrange (indexKey index) 0 0 = [] := by
    rw [RedisState.zrange, hz]; rfl
  have h2 : st.zrange (indexKey index) (-1) (-1) = [] := by
    rw [RedisState.zrange, hz]; rfl
  constructor
  · rw [grab_first_object, h1]; rfl
  · rw [grab_last_object, h2]; rfl

/-- Witness for C8 at the empty state. -/
theorem grab_empty_nil_witness :
    (emptyState.zsets (indexKey "mods") = []) ∧
    (grab_first_object emptyState "mods" = some Uuid.nil ∧
      grab_last_object emptyState "mods" = some Uuid.nil) :=
  ⟨rfl, grab_empty_nil emptyState "mods" rfl⟩

/-! ## Lemmas: range windows and pagination -/

theorem listSliceCore_map {α β : Type} (f : α → β) (l : List α) (s e : Int) :
    listSliceCore (l.map f) s e = (listSliceCore l s e).map f := by
  simp only [listSliceCore]
  rw [apply_ite (List.map f), List.map_take, List.map_drop]
  simp

theorem listSliceCore_subset {α : Type} (l : List α) (s e : Int) :
    listSliceCore l s e ⊆ l := by
  intro x hx
  unfold listSliceCore at hx
  split at hx
  · exact List.drop_subset _ _ (List.take_subset _ _ hx)
  · simp at hx

theorem listSliceCore_shape {α : Type} (l : List α) (s e : Int) :
    listSliceCore l s e = [] ∨
      ∃ s' t' : Nat, listSliceCore l s e = (l.drop s').take t' := by
  unfold listSliceCore
  split
  · exact Or.inr ⟨_, _, rfl⟩
  · exact Or.inl rfl

theorem listSlice_nil {α : Type} (a b : Int) : listSlice ([] : List α) a b = [] := by
  simp only [listSlice, listSliceCore, List.length_nil, Nat.cast_zero]
  rw [if_neg]
  intro hle
  have h2 := min_le_right (if b < 0 then (0 : Int) + b else b) ((0 : Int) - 1)
  have h3 := le_max_right (if a < 0 then (0 : Int) + a else a) 0
  omega

theorem listSlice_map {α β : Type} (f : α → β) (l : List α) (a b : Int) :
    listSlice (l.map f) a b = (listSlice l a b).map f := by
  simp only [listSlice, List.length_map]
  exact listSliceCore_map f l _ _

theorem listSlice_subset {α : Type} (l : List α) (a b : Int) :
    listSlice l a b ⊆ l := by
  simp only [listSlice]
  exact listSliceCore_subset l _ _

theorem listSlice_shape {α : Type} (l : List α) (a b : Int) :
    listSlice l a b = [] ∨
      ∃ s' t' : Nat, listSlice l a b = (l.drop s').take t' := by
  simp only [listSlice]
  exact listSliceCore_shape l _ _

theorem drop_length_sub_one {α : Type} (l : List α) (h : l ≠ []) :
    l.drop (l.length - 1) = l.getLast?.toList := by
  have hpos : 0 < l.length := List.length_pos.mpr h
  have h1 : l.length - 1 < l.length := by omega
  rw [List.drop_eq_getElem_cons h1]
  have h2 : l.length - 1 + 1 = l.length := by omega
  rw [h2, List.drop_length, List.getLast?_eq_getElem? l, List.getElem?_eq_getElem h1]
  rfl

theorem listSlice_last_one {α : Type} (l : List α) :
    listSlice l (-1) (-1) = l.getLast?.toList := by
  cases l with
  | nil => rw [listSlice_nil]; rfl
  | cons x xs =>
    have hne : (x :: xs) ≠ [] := by simp
    have hlen1 : 1 ≤ ((x :: xs).length : Int) := by
      have := List.length_pos.mpr hne
      omega
    simp only [listSlice, listSliceCore, if_pos (show (-1 : Int) < 0 by norm_num)]
    have hmax : max (((x :: xs).length : Int) + -1) 0 = ((x :: xs).length : Int) - 1 := by
      omega
    have hmin : min (((x :: xs).length : Int) + -1) (((x :: xs).length : Int) - 1) =
        ((x :: xs).length : Int) - 1 := by omega
    rw [hmax, hmin, if_pos le_rfl]
    have ht : (((x :: xs).length : Int) - 1 - (((x :: xs).length : Int) - 1) + 1).toNat
        = 1 := by omega
    have hs : ((((x :: xs).length : Int)) - 1).toNat = (x :: xs).length - 1 := by omega
    rw [ht, hs, drop_length_sub_one _ hne]
    cases hxl : (x :: xs).getLast? with
    | none => simp at hxl
    | some y => rfl

theorem mem_take_drop_last {α : Type} (l : List α) (L : α) (hnd : l.Nodup)
    (hL : l.getLast? = some L) (s t : Nat)
    (hmem : L ∈ (l.drop s).take t) :
    ∃ w', (l.drop s).take t = w' ++ [L] ∧ L ∉ w' := by
  have hne : l ≠ [] := by rintro rfl; simp at hL
  have hdecomp : l.dropLast ++ [L] = l :=
    List.dropLast_append_getLast? L (by simp [Option.mem_def, hL])
  have hnotin : L ∉ l.dropLast := by
    intro hc
    have hnd' := hnd
    rw [← hdecomp] at hnd'
    rcases List.nodup_append.mp hnd' with ⟨_, _, hdisj⟩
    exact hdisj hc (by simp)
  have hld : l.dropLast.length = l.length - 1 := List.length_dropLast l
  rw [← hdecomp] at hmem ⊢
  rcases le_or_lt s l.dropLast.length with hs | hs
  · have hds : (l.dropLast ++ [L]).drop s = l.dropLast.drop s ++ [L] := by
      rw [List.drop_append_eq_append_drop, Nat.sub_eq_zero_of_le hs, List.drop_zero]
    rw [hds] at hmem ⊢
    rcases le_or_lt t ((l.dropLast.drop s).length) with ht | ht
    · exfalso
      rw [List.take_append_eq_append_take, Nat.sub_eq_zero_of_le ht, List.take_zero,
        List.append_nil] at hmem
      exact hnotin (List.drop_subset _ _ (List.take_subset _ _ hmem))
    · refine ⟨l.dropLast.drop s, ?_, fun hc => hnotin (List.drop_subset _ _ hc)⟩
      have hlen1 : (l.dropLast.drop s).length ≤ t := le_of_lt ht
      have hlen2 : ([L] : List α).length ≤ t - (l.dropLast.drop s).length := by
        simp only [List.length_singleton]
        omega
      rw [List.take_append_eq_append_take, List.take_of_length_le hlen1,
        List.take_of_length_le hlen2]
  · exfalso
    have hnil : (l.dropLast ++ [L]).drop s = [] :=
      List.drop_eq_nil_of_le
        (by simp only [List.length_append, List.length_singleton]; omega)
    rw [hnil] at hmem
    simp at hmem

theorem flatMap_sentinel_concat {α β : Type} [DecidableEq α] (w' : List α) (L : α)
    (g : α → β) (x : β) (hnotin : L ∉ w') :
    (w' ++ [L]).flatMap (fun u => g u :: (if u = L then [x] else [])) =
      (w' ++ [L]).map g ++ [x] := by
  induction w' with
  | nil => simp
  | cons u w' ih =>
    have hu : u ≠ L := fun h => hnotin (by simp [h])
    simp only [List.cons_append, List.flatMap_cons, List.map_cons]
    rw [ih (fun hc => hnotin (by simp [hc]))]
    simp [hu]

theorem flatMap_sentinel_no {α β : Type} [DecidableEq α] (w : List α) (L : α)
    (g : α → β) (x : β) (hnotin : L ∉ w) :
    w.flatMap (fun u => g u :: (if u = L then [x] else [])) = w.map g := by
  induction w with
  | nil => rfl
  | cons u w ih =>
    have hu : u ≠ L := fun h => hnotin (by simp [h])
    simp only [List.flatMap_cons, List.map_cons]
    rw [ih (fun hc => hnotin (by simp [hc]))]
    simp [hu]

theorem flatMap_sentinel_of_last {α β : Type} [DecidableEq α] (w : List α) (L : α)
    (g : α → β) (x : β)
    (hcase : L ∈ w → ∃ w', w = w' ++ [L] ∧ L ∉ w') :
    w.flatMap (fun u => g u :: (if u = L then [x] else [])) =
      w.map g ++ (if L ∈ w then [x] else []) := by
  by_cases hmemL : L ∈ w
  · obtain ⟨w', hww, hnot⟩ := hcase hmemL
    rw [if_pos hmemL, hww, flatMap_sentinel_concat w' L g x hnot]
  · rw [flatMap_sentinel_no w L g x hmemL, if_neg hmemL]
    simp

theorem grab_last_eq (st : RedisState) (index : String) (us : List Uuid)
    (hmem : (st.zrangeList (indexKey index)).map Prod.fst = us.map Uuid.to_simple)
    (hlt : ∀ u ∈ us, u < 2 ^ 128) :
    grab_last_object st index = some (us.getLast?.getD Uuid.nil) := by
  unfold grab_last_object
  have hz : st.zrange (indexKey index) (-1) (-1) =
      (listSlice us (-1) (-1)).map Uuid.to_simple := by
    rw [RedisState.zrange, ← listSlice_map, hmem, listSlice_map]
  rw [hz, listSlice_last_one]
  cases hus : us.getLast? with
  | none => simp [Option.toList]
  | some L =>
    have hLmem : L ∈ us := by
      have hmm : L ∈ us.getLast? := by rw [Option.mem_def, hus]
      obtain ⟨h, hx⟩ := List.mem_getLast?_eq_getLast hmm
      rw [hx]
      exact List.getLast_mem h
    simp [Option.toList, Uuid.parse_str_to_simple L (hlt L hLmem)]

theorem requestGroupAux_eq (st : RedisState) (index : String) (fm : List String)
    (w : List Uuid) (L : Uuid)
    (hw : ∀ u ∈ w, u < 2 ^ 128)
    (hlast : grab_last_object st index = some L) :
    requestGroupAux st index fm (w.map Uuid.to_simple) =
      some (w.flatMap (fun u =>
        (u, retrieve_object_from_database st index fm u) ::
          (if u = L then [(Uuid.nil, [])] else []))) := by
  induction w with
  | nil => rfl
  | cons u w ih =>
    simp only [List.map_cons, requestGroupAux]
    rw [Uuid.parse_str_to_simple u (hw u (by simp)), hlast,
      ih (fun x hx => hw x (by simp [hx]))]
    simp [List.flatMap_cons]

theorem request_group_eq (st : RedisState) (field_map : List String) (index : String)
    (amount : Int) (us : List Uuid)
    (hmem : (st.zrangeList (indexKey index)).map Prod.fst = us.map Uuid.to_simple)
    (hnd : us.Nodup) (hlt : ∀ u ∈ us, u < 2 ^ 128) :
    request_group_of_objects st field_map index amount =
      some ((listSlice us (8 * (amount - 1)) (8 * amount - 1)).map
          (fun u => (u, retrieve_object_from_database st index field_map u)) ++
        if us.getLast?.getD Uuid.nil ∈ listSlice us (8 * (amount - 1)) (8 * amount - 1)
        then [(Uuid.nil, [])] else []) := by
  have hlast := grab_last_eq st index us hmem hlt
  have hzr : st.zrange (indexKey index) (8 * (amount - 1)) (8 * amount - 1) =
      (listSlice us (8 * (amount - 1)) (8 * amount - 1)).map Uuid.to_simple := by
    rw [RedisState.zrange, ← listSlice_map, hmem, listSlice_map]
  unfold request_group_of_objects
  rw [hzr, requestGroupAux_eq st index field_map _ (us.getLast?.getD Uuid.nil)
    (fun u hu => hlt u (listSlice_subset us _ _ hu)) hlast]
  rw [flatMap_sentinel_of_last]
  intro hmemL
  have husne : us ≠ [] := by
    rintro rfl
    rw [listSlice_nil] at hmemL
    simp at hmemL
  have hL : us.getLast? = some (us.getLast?.getD Uuid.nil) := by
    rw [List.getLast?_eq_getLast_of_ne_nil husne]
    rfl
  rcases listSlice_shape us (8 * (amount - 1)) (8 * amount - 1) with hsh | ⟨s', t', hsh⟩
  · rw [hsh] at hmemL
    simp at hmemL
  · rw [hsh] at hmemL ⊢
    exact mem_take_drop_last us _ hnd hL s' t' hmemL

theorem getLast_mem_drop {α : Type} (l : List α) (h : l ≠ []) (k : Nat)
    (hk : k < l.length) : l.getLast h ∈ l.drop k := by
  have hdecomp : l.dropLast ++ [l.getLast h] = l := List.dropLast_append_getLast h
  have hld : l.dropLast.length = l.length - 1 := List.length_dropLast l
  have hdk : l.drop k = l.dropLast.drop k ++ [l.getLast h] := by
    conv_lhs => rw [← hdecomp]
    rw [List.drop_append_eq_append_drop, Nat.sub_eq_zero_of_le (by omega),
      List.drop_zero]
  rw [hdk]
  simp

theorem listSlice_last_eight {α : Type} (l : List α) (h8 : 8 ≤ l.length) :
    listSlice l (-8) (-1) = l.drop (l.length - 8) := by
  simp only [listSlice, listSliceCore,
    if_pos (show (-8 : Int) < 0 by norm_num), if_pos (show (-1 : Int) < 0 by norm_num)]
  have hlen : (8 : Int) ≤ (l.length : Int) := by exact_mod_cast h8
  have hmax : max ((l.length : Int) + -8) 0 = (l.length : Int) - 8 := by omega
  have hmin : min ((l.length : Int) + -1) ((l.length : Int) - 1) =
      (l.length : Int) - 1 := by omega
  rw [hmax, hmin, if_pos (by omega)]
  have h1 : ((l.length : Int) - 1 - ((l.length : Int) - 8) + 1).toNat = 8 := by omega
  have h2 : ((l.length : Int) - 8).toNat = l.length - 8 := by omega
  rw [h1, h2]
  exact List.take_of_length_le (by rw [List.length_drop]; omega)

/-- C5: for a well-formed ordering index (its members render distinct
128-bit identifiers) and a 1-based page number, the page fetch returns
exactly the pairs for the identifiers whose ranks lie in the inclusive
window `[8*(n-1), 8*n-1]` of the ordering index, and appends the
`(nil, empty)` sentinel entry to the result exactly when that window
contains the identifier returned by `grab_last_object`. -/
theorem request_group_window_sentinel (st : RedisState) (field_map : List String)
    (index : String) (amount : Int) (us : List Uuid)
    (hmem : (st.zrangeList (indexKey index)).map Prod.fst = us.map Uuid.to_simple)
    (hnd : us.Nodup) (hlt : ∀ u ∈ us, u < 2 ^ 128) (hpage : 1 ≤ amount) :
    request_group_of_objects st field_map index amount =
      some ((listSlice us (8 * (amount - 1)) (8 * amount - 1)).map
          (fun u => (u, retrieve_object_from_database st index field_map u)) ++
        if us.getLast?.getD Uuid.nil ∈ listSlice us (8 * (amount - 1)) (8 * amount - 1)
        then [(Uuid.nil, [])] else []) :=
  request_group_eq st field_map index amount us hmem hnd hlt

/-- Witness for C5 at a concrete two-entry index and page 1. -/
theorem request_group_window_sentinel_witness :
    ((twoState.zrangeList (indexKey "mods")).map Prod.fst =
        ([1, 2] : List Uuid).map Uuid.to_simple ∧
      ([1, 2] : List Uuid).Nodup ∧
      (∀ u ∈ ([1, 2] : List Uuid), u < 2 ^ 128) ∧ (1 : Int) ≤ 1) ∧
    request_group_of_objects twoState ModObject.fields "mods" 1 =
      some ((listSlice ([1, 2] : List Uuid) (8 * (1 - 1)) (8 * 1 - 1)).map
          (fun u =>
            (u, retrieve_object_from_database twoState "mods" ModObject.fields u)) ++
        if ([1, 2] : List Uuid).getLast?.getD Uuid.nil ∈
            listSlice ([1, 2] : List Uuid) (8 * (1 - 1)) (8 * 1 - 1)
        then [(Uuid.nil, [])] else []) :=
  ⟨⟨by decide, by decide, by decide, by decide⟩,
    request_group_window_sentinel twoState ModObject.fields "mods" 1 [1, 2]
      (by decide) (by decide) (by decide) (by decide)⟩

/-- C10 (counterexample): page 0 on the empty index returns the empty
result list (with no error), refuting "for every non-positive page
number the page fetch does not fail or return an empty result". -/
theorem request_group_zero_empty_cex :
    request_group_of_objects emptyState ModObject.fields "mods" 0 = some [] := by
  decide

/-- C10 (amended): for every non-positive page number `n`, the page
fetch still succeeds, requesting the rank window `[8*(n-1), 8*n-1]`
whose negative bounds count from the end of the ordering index; in
particular page 0 on an index with at least eight entries returns the
pairs for the last eight identifiers in order (followed by the
sentinel, since that window contains `last()`).  The result may be
empty when the window lies entirely outside the index. -/
theorem request_group_nonpositive (st : RedisState) (field_map : List String)
    (index : String) (amount : Int) (us : List Uuid)
    (hmem : (st.zrangeList (indexKey index)).map Prod.fst = us.map Uuid.to_simple)
    (hnd : us.Nodup) (hlt : ∀ u ∈ us, u < 2 ^ 128) (hpage : amount ≤ 0) :
    request_group_of_objects st field_map index amount =
      some ((listSlice us (8 * (amount - 1)) (8 * amount - 1)).map
          (fun u => (u, retrieve_object_from_database st index field_map u)) ++
        if us.getLast?.getD Uuid.nil ∈ listSlice us (8 * (amount - 1)) (8 * amount - 1)
        then [(Uuid.nil, [])] else []) ∧
    (amount = 0 → 8 ≤ us.length →
      request_group_of_objects st field_map index amount =
        some ((us.drop (us.length - 8)).map
            (fun u => (u, retrieve_object_from_database st index field_map u)) ++
          [(Uuid.nil, [])])) := by
  refine ⟨request_group_eq st field_map index amount us hmem hnd hlt, ?_⟩
  rintro rfl h8
  rw [request_group_eq st field_map index 0 us hmem hnd hlt]
  have ha : (8 : Int) * (0 - 1) = -8 := by norm_num
  have hb : (8 : Int) * 0 - 1 = -1 := by norm_num
  rw [ha, hb, listSlice_last_eight us h8]
  have husne : us ≠ [] := by
    intro h
    rw [h] at h8
    simp at h8
  have hmem8 : us.getLast?.getD Uuid.nil ∈ us.drop (us.length - 8) := by
    rw [List.getLast?_eq_getLast_of_ne_nil husne]
    simp only [Option.getD_some]
    exact getLast_mem_drop us husne _ (by omega)
  rw [if_pos hmem8]

/-- Witness for C10 at a concrete nine-entry index and page 0. -/
theorem request_group_nonpositive_witness :
    ((nineState.zrangeList (indexKey "mods")).map Prod.fst =
        ([1, 2, 3, 4, 5, 6, 7, 8, 9] : List Uuid).map Uuid.to_simple ∧
      ([1, 2, 3, 4, 5, 6, 7, 8, 9] : List Uuid).Nodup ∧
      (∀ u ∈ ([1, 2, 3, 4, 5, 6, 7, 8, 9] : List Uuid), u < 2 ^ 128) ∧
      (0 : Int) ≤ 0 ∧ 8 ≤ ([1, 2, 3, 4, 5, 6, 7, 8, 9] : List Uuid).length) ∧
    request_group_of_objects nineState ModObject.fields "mods" 0 =
      some ((([1, 2, 3, 4, 5, 6, 7, 8, 9] : List Uuid).drop
            (([1, 2, 3, 4, 5, 6, 7, 8, 9] : List Uuid).length - 8)).map
          (fun u =>
            (u, retrieve_object_from_database nineState "mods" ModObject.fields u)) ++
        [(Uuid.nil, [])]) :=
  ⟨⟨by decide, by decide, by decide, by decide, by decide⟩,
    (request_group_nonpositive nineState ModObject.fields "mods" 0
        [1, 2, 3, 4, 5, 6, 7, 8, 9] (by decide) (by decide) (by decide)
        (by decide)).2 rfl (by decide)⟩
